import Mathlib

/-!
Verification development for the vanity-worker repository.

The repository has two source modules:

* `src/crypto.ts` — the Secret Sealer: derives a symmetric key from the
  environment value `VANITY_ENCRYPTION_KEY` (`getKey`), and seals/unseals
  secret-key bytes with AES-256-GCM (`encryptSecret` / `decryptSecret`),
  with blob layout `nonce(12) concat tag(16) concat ciphertext`.

* `src/worker.ts` — the Search Worker and Replenishment Controller:
  `matches` (case-sensitive suffix test), `ensureBuffer` (count ready rows,
  then generate/match/seal/insert until the buffer target is reached,
  skipping unique-constraint violations with code P2002), and `main`
  (an infinite loop that, each cycle, runs `ensureBuffer` for every
  configured pattern inside a try/catch, so one pattern's failure cannot
  stop the loop).

Everything below is a shallow embedding of that code.  JavaScript strings
are `List Char`; byte buffers are `List Nat` with values below 256 where
the code guarantees it.  JavaScript numbers that can be `NaN` (the result
of `Number(...)`) are the type `JsNum`.  Fallible operations return
`Except`.  The unbounded `while` loop of `ensureBuffer` is embedded with
explicit fuel; running out of fuel is the `outOfFuel` outcome, distinct
from normal completion and from a thrown error.

External primitives (the node `crypto` module's AES-256-GCM, SHA-256 and
CSPRNG, the `@solana/web3.js` key generator, and the Prisma store) are not
code of this repository.  They are embedded as executable models that are
faithful to the interface contract the code relies on: the AEAD model is
deterministic, length-preserving, and has perfect authentication (its tag
determines key, nonce and ciphertext; real AES-256-GCM provides this
except with probability about 2^-128, which the model idealises away);
the hash and CSPRNG models are deterministic functions with the correct
output lengths; the store model enforces the unique constraint on
`publicKey` and reports violations as the distinguished Prisma code P2002.
Randomness (key generation, nonces) is modelled by explicit counters into
deterministic streams, and infra failures of the store are modelled by an
explicit failure-injection oracle, so that every behaviour the claims
mention is reachable in the model.
-/

/-- JavaScript strings (UTF-16 code points; the code only handles ASCII). -/
abbrev Str := List Char

/-- Byte buffers (`Buffer` / `Uint8Array`). -/
abbrev Bytes := List Nat

/-- A JavaScript number that may be `NaN`: the result of `Number(...)` in
`const MIN_BUFFER = Number(process.env.VANITY_MIN_BUFFER || '5')`.  The
worker only ever meets integer values (the `Number(...)` model below
parses digit strings) or `NaN`, so the numeric payload is an integer. -/
inductive JsNum where
  | nan : JsNum
  | num (n : ℤ) : JsNum
deriving DecidableEq

/-- JS `ready >= m` for a nonnegative integer `ready`: any comparison with
`NaN` is false. -/
def jsGeNat (ready : Nat) (m : JsNum) : Bool :=
  match m with
  | .nan => false
  | .num n => decide (n ≤ (ready : ℤ))

/-- JS `m - ready`: `NaN` propagates. -/
def jsSubNat (m : JsNum) (ready : Nat) : JsNum :=
  match m with
  | .nan => .nan
  | .num n => .num (n - (ready : ℤ))

/-- JS `Math.max(0, x)`: `Math.max` returns `NaN` if any argument is `NaN`. -/
def jsMax0 (m : JsNum) : JsNum :=
  match m with
  | .nan => .nan
  | .num n => .num (if n ≤ 0 then 0 else n)

/-- JS `found < m` for a nonnegative integer `found`: any comparison with
`NaN` is false. -/
def jsLtNat (found : Nat) (m : JsNum) : Bool :=
  match m with
  | .nan => false
  | .num n => decide ((found : ℤ) < n)

/-- Digit test for the `Number(...)` model. -/
def isDigitChar (c : Char) : Bool :=
  48 ≤ c.toNat && c.toNat ≤ 57

/-- Numeric value of a digit string. -/
def digitsVal (s : Str) : Nat :=
  s.foldl (fun acc c => acc * 10 + (c.toNat - 48)) 0

/-- Model of JS `Number(s)` restricted to the shapes the worker meets: a
nonempty string of decimal digits parses to its value, anything else is
`NaN`.  (Real `Number` also accepts signs, fractions and whitespace; the
claims only distinguish "parses to a number" from "yields `NaN`", which
this model preserves.) -/
def jsNumber (s : Str) : JsNum :=
  if s ≠ [] ∧ s.all isDigitChar then .num (digitsVal s) else .nan

/-- JS `process.env.VANITY_MIN_BUFFER || '5'`: `undefined` and the empty
string are falsy, so both fall back to `'5'`. -/
def minBufEnvStr (envMinBuffer : Option Str) : Str :=
  match envMinBuffer with
  | none => ['5']
  | some [] => ['5']
  | some s => s

/-- `const MIN_BUFFER = Number(process.env.VANITY_MIN_BUFFER || '5')`
(src/worker.ts line 13). -/
def minBufferOf (envMinBuffer : Option Str) : JsNum :=
  jsNumber (minBufEnvStr envMinBuffer)

/-!  ## The Secret Sealer (src/crypto.ts)  -/

/-- Errors of the sealing layer.  `configurationError` is the
`'VANITY_ENCRYPTION_KEY not set'` throw in `getKey`; `invalidKeyLength`,
`invalidIV` and `invalidTagLength` are the node `crypto` module's
parameter-validation throws; `authenticationError` is the GCM tag-check
failure thrown by `decipher.final()`.  `formatError` is the distinguished
malformed-blob error the specification describes; it is included so that
statements about it can be made, and the theorems show the code never
produces it. -/
inductive CryptoError where
  | configurationError : CryptoError
  | invalidKeyLength : CryptoError
  | invalidIV : CryptoError
  | invalidTagLength : CryptoError
  | authenticationError : CryptoError
  | formatError : CryptoError
deriving DecidableEq

/-- Hex-digit test, as in the regex `[A-Fa-f0-9]`. -/
def isHexChar (c : Char) : Bool :=
  (48 ≤ c.toNat && c.toNat ≤ 57) ||
  (65 ≤ c.toNat && c.toNat ≤ 70) ||
  (97 ≤ c.toNat && c.toNat ≤ 102)

/-- Test of the regex `^[A-Fa-f0-9]{64}$` from `getKey`. -/
def isHex64 (s : Str) : Bool :=
  s.length == 64 && s.all isHexChar

/-- Value of a hex digit. -/
def hexVal (c : Char) : Nat :=
  if 48 ≤ c.toNat ∧ c.toNat ≤ 57 then c.toNat - 48
  else if 65 ≤ c.toNat ∧ c.toNat ≤ 70 then c.toNat - 55
  else if 97 ≤ c.toNat ∧ c.toNat ≤ 102 then c.toNat - 87
  else 0

/-- `Buffer.from(key, 'hex')`: consecutive digit pairs become bytes. -/
def hexDecode : Str → Bytes
  | c1 :: c2 :: rest => (hexVal c1 * 16 + hexVal c2) :: hexDecode rest
  | _ => []

/-- Character class of the regex `[A-Za-z0-9+/=]`. -/
def isB64Char (c : Char) : Bool :=
  (65 ≤ c.toNat && c.toNat ≤ 90) ||
  (97 ≤ c.toNat && c.toNat ≤ 122) ||
  (48 ≤ c.toNat && c.toNat ≤ 57) ||
  c.toNat == 43 || c.toNat == 47 || c.toNat == 61

/-- Test of the regex `^[A-Za-z0-9+/=]{43,45}$` from `getKey`. -/
def isB64Str (s : Str) : Bool :=
  43 ≤ s.length && s.length ≤ 45 && s.all isB64Char

/-- Sextet value of a base64 alphabet character (`'='` and anything else
carry no data). -/
def b64Val (c : Char) : Option Nat :=
  if 65 ≤ c.toNat ∧ c.toNat ≤ 90 then some (c.toNat - 65)
  else if 97 ≤ c.toNat ∧ c.toNat ≤ 122 then some (c.toNat - 71)
  else if 48 ≤ c.toNat ∧ c.toNat ≤ 57 then some (c.toNat + 4)
  else if c.toNat = 43 then some 62
  else if c.toNat = 47 then some 63
  else none

/-- Pack base64 sextets into bytes: 4 sextets give 3 bytes; a trailing
group of 2 or 3 sextets gives 1 or 2 bytes; a lone trailing sextet gives
nothing.  This is node's forgiving base64 decoder. -/
def packSextets : List Nat → Bytes
  | a :: b :: c :: d :: rest =>
      (a * 4 + b / 16) :: ((b % 16) * 16 + c / 4) :: ((c % 4) * 64 + d) :: packSextets rest
  | [a, b] => [a * 4 + b / 16]
  | [a, b, c] => [a * 4 + b / 16, (b % 16) * 16 + c / 4]
  | _ => []

/-- `Buffer.from(key, 'base64')`: data stops at the first `'='`. -/
def base64Decode (s : Str) : Bytes :=
  packSextets ((s.takeWhile (fun c => c.toNat ≠ 61)).filterMap b64Val)

/-- Code points of a JS string, as fed to `createHash('sha256').update`. -/
def strBytes (s : Str) : Bytes :=
  s.map Char.toNat

/-- Model of the external SHA-256 primitive
(`crypto.createHash('sha256').update(key).digest()`).  The code relies
only on its interface contract: a deterministic digest of exactly 32
bytes; the mixing below is an executable stand-in for the real
compression function. -/
def hashDigest (input : Bytes) : Bytes :=
  (List.range 32).map
    (fun i => (input.foldl (fun acc b => (acc * 131 + b + 7) % 1000000007) (i + 1)) % 256)

/-- `getKey` (src/crypto.ts lines 5-12): read `VANITY_ENCRYPTION_KEY`
from the environment; throw if it is absent or empty (JS `!key` is true
for the empty string); hex-decode a 64-char hex string; base64-decode a
43-45-char base64-alphabet string; otherwise hash the material. -/
def getKey (env : Option Str) : Except CryptoError Bytes :=
  match env with
  | none => .error .configurationError
  | some k =>
    if k = [] then .error .configurationError
    else if isHex64 k then .ok (hexDecode k)
    else if isB64Str k then .ok (base64Decode k)
    else .ok (hashDigest (strBytes k))

/-- Model of the external CSPRNG `crypto.randomBytes(12)`: the `n`-th call
of the process returns 12 deterministic-model bytes.  The code relies on
the primitive only for the output length and freshness. -/
def randomBytes12 (n : Nat) : Bytes :=
  (List.range 12).map (fun i => (n * 131 + i * 37 + 11) % 256)

/-- Base-256 value of a byte string (used by the AEAD model to treat the
derived key as one number; injective on 32-byte keys). -/
def keyNatFold (key : Bytes) : Nat :=
  key.foldl (fun acc b => acc * 256 + b) 0

/-- Nonzero evaluation point of the tag polynomial, derived from the key
(always in `[1, 256]`, hence nonzero modulo the prime 257). -/
def hSub (key : Bytes) : Nat :=
  keyNatFold key % 256 + 1

/-- One step of the polynomial tag hash, modulo the prime 257. -/
def polyStep (h acc b : Nat) : Nat :=
  (acc * h + b) % 257

/-- Polynomial hash of a byte list at point `h`, modulo 257 (the model's
analogue of GHASH, over a prime field so that its injectivity on
single-position changes is provable). -/
def polyA (h acc : Nat) (l : Bytes) : Nat :=
  l.foldl (polyStep h) acc

/-- Tag value of the AEAD model: an injective pairing of the key's value
with the polynomial hash of nonce, ciphertext and length.  Perfect
authentication is the idealisation: the tag determines the key and the
authenticated data exactly, where real AES-256-GCM provides this up to a
2^-128 forgery probability. -/
def tagNat (key iv enc : Bytes) : Nat :=
  keyNatFold key * 257 + polyA (hSub key) 1 (iv ++ enc ++ [enc.length])

/-- The 16-entry tag block returned by `cipher.getAuthTag()` in the model:
the tag value followed by 15 zero entries. -/
def mkTag (key iv enc : Bytes) : Bytes :=
  tagNat key iv enc :: List.replicate 15 0

/-- One keystream byte of the AEAD model (CTR-mode analogue). -/
def ksByte (key iv : Bytes) (i : Nat) : Nat :=
  polyA 251 1 (key ++ iv ++ [i]) % 256

/-- Keystream of length `n` for the given key and nonce. -/
def keystream (key iv : Bytes) (n : Nat) : Bytes :=
  (List.range n).map (ksByte key iv)

/-- Pointwise XOR (the CTR-mode combine; length-preserving on equal
lengths). -/
def zipXor (a b : Bytes) : Bytes :=
  List.zipWith (fun x y => x ^^^ y) a b

/-- `encryptSecret` (src/crypto.ts lines 14-21): derive the key, draw a
fresh 12-byte nonce (passed here as the CSPRNG call result), encrypt, and
return `nonce concat tag concat ciphertext`.  `createCipheriv
('aes-256-gcm', key, iv)` throws if the key is not exactly 32 bytes. -/
def encryptSecret (env : Option Str) (iv plain : Bytes) : Except CryptoError Bytes :=
  match getKey env with
  | .error e => .error e
  | .ok key =>
    if key.length = 32 then
      let enc := zipXor plain (keystream key iv plain.length)
      .ok (iv ++ mkTag key iv enc ++ enc)
    else .error .invalidKeyLength

/-- Lengths `setAuthTag` accepts for GCM when no `authTagLength` option
was given: 128, 120, 112, 104, 96, 64 or 32 bits. -/
def tagLenOk (n : Nat) : Bool :=
  n == 16 || n == 15 || n == 14 || n == 13 || n == 12 || n == 8 || n == 4

/-- `decryptSecret` (src/crypto.ts lines 23-31): derive the key, split the
blob as `subarray(0,12)`, `subarray(12,28)`, `subarray(28)` with no length
validation of its own, and run the decipher.  The node layer rejects a
non-32-byte key, an empty IV and an unsupported tag length; `final()`
throws the authentication error on tag mismatch and only then is the
plaintext released. -/
def decryptSecret (env : Option Str) (blob : Bytes) : Except CryptoError Bytes :=
  match getKey env with
  | .error e => .error e
  | .ok key =>
    let iv := blob.take 12
    let tag := (blob.drop 12).take 16
    let enc := blob.drop 28
    if key.length ≠ 32 then .error .invalidKeyLength
    else if iv.length = 0 then .error .invalidIV
    else if ¬ tagLenOk tag.length then .error .invalidTagLength
    else if tag = (mkTag key iv enc).take tag.length then
      .ok (zipXor enc (keystream key iv enc.length))
    else .error .authenticationError

deriving instance DecidableEq for Except

/-- `true` exactly when a sealing-layer result is the distinguished
malformed-blob error of the specification. -/
def isFormatError : Except CryptoError Bytes → Bool
  | .error .formatError => true
  | _ => false

/-- Flip bit `k` of entry `i` of a blob (out-of-range `i` leaves the blob
unchanged). -/
def flipBit (l : Bytes) (i k : Nat) : Bytes :=
  l.set i ((l.getD i 0) ^^^ (2 ^ k))

/-- The sealed blob produced for plaintext `plain` with the `n`-th nonce
(empty if sealing failed). -/
def theBlob (env : Option Str) (n : Nat) (plain : Bytes) : Bytes :=
  ((encryptSecret env (randomBytes12 n) plain).toOption).getD []

/-!  ## The Search Worker and Replenishment Controller (src/worker.ts)  -/

/-- A generated keypair candidate: `Keypair.generate()` together with
`kp.publicKey.toBase58()` and `kp.secretKey`.  The external generator is
modelled as a deterministic stream indexed by the number of
`Keypair.generate()` calls made so far. -/
structure Keypair where
  publicKey : Str
  secretKey : Bytes
deriving DecidableEq

/-- A row of the `VanityMintPool` table, restricted to the fields the
worker writes (`reservedUntil`, `createdAt` and `usedAt` are set by the
database and never touched by this code).  `id` is the `randomUUID()`
value, modelled as a fresh counter value. -/
structure Row where
  id : Nat
  publicKey : Str
  encSecret : Bytes
  pattern : Str
  caseSensitive : Bool
  status : Str
deriving DecidableEq

/-- The status literal `'ready'`. -/
def readyS : Str := ['r', 'e', 'a', 'd', 'y']

/-- `matches` (src/worker.ts lines 15-18): case-sensitive suffix test,
`pub.endsWith(pattern)`. -/
def «matches» (pub pattern : Str) : Bool :=
  List.isSuffixOf pattern pub

/-- The `where` filter of the `prisma.vanityMintPool.count` call in
`ensureBuffer`: same pattern, `caseSensitive: true`, `status: 'ready'`. -/
def readyRowFor (pattern : Str) (r : Row) : Bool :=
  r.pattern == pattern && r.caseSensitive && r.status == readyS

/-- `prisma.vanityMintPool.count({ where: { pattern, caseSensitive: true,
status: 'ready' } })` against a store state. -/
def countReady (store : List Row) (pattern : Str) : Nat :=
  (store.filter (readyRowFor pattern)).length

/-- Outcome of one `prisma.vanityMintPool.create` call: a successful
insert, or the distinguished unique-constraint violation with Prisma
error code P2002. -/
inductive InsertResult where
  | inserted (store : List Row) : InsertResult
  | dupP2002 : InsertResult
deriving DecidableEq

/-- The store's atomic uniqueness-checked insert: a row whose `publicKey`
already exists is rejected with P2002, anything else is appended. -/
def create (store : List Row) (row : Row) : InsertResult :=
  if store.any (fun r => r.publicKey == row.publicKey) then .dupP2002
  else .inserted (store ++ [row])

/-- An error escaping `ensureBuffer`: a sealing-layer throw from
`encryptSecret`, or a non-P2002 store failure rethrown by the
`if (e?.code !== 'P2002') throw e` handler. -/
inductive WorkerError where
  | crypto (e : CryptoError) : WorkerError
  | storeError : WorkerError
deriving DecidableEq

/-- The mutable state threaded through one `ensureBuffer` call: the store
contents, the `found` counter, and the process-wide call counters for
`Keypair.generate` (`next`), `crypto.randomBytes` (`ivn`), `randomUUID`
(`uuid`) and `prisma...create` (`att`, the index used by the
failure-injection oracle). -/
structure SearchState where
  store : List Row
  found : Nat
  next : Nat
  ivn : Nat
  uuid : Nat
  att : Nat
deriving DecidableEq

/-- Result of one `ensureBuffer` call: normal return, an escaped throw, or
exhaustion of the embedding's fuel (the code's loop is unbounded; fuel
exhaustion models "still searching", not a behaviour of the code). -/
inductive FillOutcome where
  | done (s : SearchState) : FillOutcome
  | failed (e : WorkerError) (s : SearchState) : FillOutcome
  | outOfFuel (s : SearchState) : FillOutcome
deriving DecidableEq

/-- The state carried by any outcome. -/
def FillOutcome.state : FillOutcome → SearchState
  | .done s => s
  | .failed _ s => s
  | .outOfFuel s => s

/-- `true` exactly for a normal return. -/
def FillOutcome.isDone : FillOutcome → Bool
  | .done _ => true
  | _ => false

/-- The process configuration and its external collaborators:
`VANITY_ENCRYPTION_KEY`, the keypair-generator stream, and the
failure-injection oracle for the store (`failAt n = true` makes the
`n`-th `create` call of the process fail with a non-P2002 infra error). -/
structure WConfig where
  env : Option Str
  gen : Nat → Keypair
  failAt : Nat → Bool

/-- The row handed to `prisma.vanityMintPool.create` for the current
candidate: fresh `randomUUID`, the candidate key, the sealed secret, and
`caseSensitive: true`, `status: 'ready'`. -/
def candRow (C : WConfig) (pattern : Str) (s : SearchState) (enc : Bytes) : Row :=
  { id := s.uuid, publicKey := (C.gen s.next).publicKey, encSecret := enc,
    pattern := pattern, caseSensitive := true, status := readyS }

/-- The `while (found < toGenerate)` loop of `ensureBuffer`
(src/worker.ts lines 60-87): generate a keypair; if its base58 encoding
matches, seal the secret (a throw here escapes the loop — the call sits
outside the inner try) and attempt the insert; count a success, skip a
P2002 duplicate, rethrow anything else. -/
def fillLoop (C : WConfig) (pattern : Str) (toGen : JsNum) :
    Nat → SearchState → FillOutcome
  | 0, s => if jsLtNat s.found toGen then .outOfFuel s else .done s
  | fuel + 1, s =>
    if jsLtNat s.found toGen then
        let kp := C.gen s.next
        if «matches» kp.publicKey pattern then
          match encryptSecret C.env (randomBytes12 s.ivn) kp.secretKey with
          | .error e => .failed (.crypto e) { s with next := s.next + 1 }
          | .ok enc =>
            if C.failAt s.att then
              .failed .storeError
                { s with next := s.next + 1, ivn := s.ivn + 1,
                         uuid := s.uuid + 1, att := s.att + 1 }
            else
              match create s.store (candRow C pattern s enc) with
              | .inserted store' =>
                fillLoop C pattern toGen fuel
                  { store := store', found := s.found + 1, next := s.next + 1,
                    ivn := s.ivn + 1, uuid := s.uuid + 1, att := s.att + 1 }
              | .dupP2002 =>
                fillLoop C pattern toGen fuel
                  { s with next := s.next + 1, ivn := s.ivn + 1,
                           uuid := s.uuid + 1, att := s.att + 1 }
        else fillLoop C pattern toGen fuel { s with next := s.next + 1 }
    else .done s

/-- The controller-visible state between `ensureBuffer` calls. -/
structure CtrlState where
  store : List Row
  next : Nat
  ivn : Nat
  uuid : Nat
  att : Nat
deriving DecidableEq

/-- Start-of-fill search state for a controller state. -/
def initState (st : CtrlState) : SearchState :=
  ⟨st.store, 0, st.next, st.ivn, st.uuid, st.att⟩

/-- Controller state after a fill. -/
def ctrlOf (s : SearchState) : CtrlState :=
  ⟨s.store, s.next, s.ivn, s.uuid, s.att⟩

/-- `ensureBuffer` (src/worker.ts lines 53-88): count the ready rows for
the pattern; return immediately if the buffer is full (`ready >=
MIN_BUFFER`); otherwise compute `toGenerate = Math.max(0, MIN_BUFFER -
ready)` and run the search loop. -/
def ensureBuffer (C : WConfig) (minB : JsNum) (fuel : Nat)
    (st : CtrlState) (pattern : Str) : FillOutcome :=
  let ready := countReady st.store pattern
  if jsGeNat ready minB then .done (initState st)
  else fillLoop C pattern (jsMax0 (jsSubNat minB ready)) fuel (initState st)

/-- What the controller logs for one pattern of one cycle: a completed
fill, or a caught and logged `ensureBuffer` error. -/
inductive Event where
  | filled (p : Str) (found : Nat) : Event
  | caught (p : Str) (e : WorkerError) : Event
deriving DecidableEq

/-- One pass of the `for (const p of TARGETS)` loop inside `main`
(src/worker.ts lines 108-115): run `ensureBuffer` for each pattern in
order, catching and logging any error so the loop proceeds to the next
pattern.  `none` means some fill was still searching when the embedding's
fuel ran out (the code would simply still be inside that fill). -/
def runCycle (C : WConfig) (minB : JsNum) (fuel : Nat) :
    List Str → CtrlState → Option (CtrlState × List Event)
  | [], st => some (st, [])
  | p :: ps, st =>
    match ensureBuffer C minB fuel st p with
    | .done s =>
      (runCycle C minB fuel ps (ctrlOf s)).map
        (fun r => (r.1, Event.filled p s.found :: r.2))
    | .failed e s =>
      (runCycle C minB fuel ps (ctrlOf s)).map
        (fun r => (r.1, Event.caught p e :: r.2))
    | .outOfFuel _ => none

/-- `n` iterations of the infinite `while (true)` controller loop. -/
def runCycles (C : WConfig) (minB : JsNum) (fuel : Nat) (ps : List Str) :
    Nat → CtrlState → Option (CtrlState × List (List Event))
  | 0, st => some (st, [])
  | n + 1, st =>
    match runCycle C minB fuel ps st with
    | none => none
    | some (st', evs) =>
      (runCycles C minB fuel ps n st').map (fun r => (r.1, evs :: r.2))

/-- The event-list length of a completed cycle. -/
def runCycleEvLen (C : WConfig) (minB : JsNum) (fuel : Nat)
    (ps : List Str) (st : CtrlState) : Option Nat :=
  (runCycle C minB fuel ps st).map (fun r => r.2.length)

/-!  ## Shared concrete instances for witnesses and counterexamples  -/

/-- A concrete valid key environment: 64 hex zeros, deriving the 32-zero
key. -/
def envZero : Option Str := some (List.replicate 64 '0')

/-- A second valid key environment deriving a different 32-byte key. -/
def envOne : Option Str := some (List.replicate 64 '1')

/-- A demonstration generator stream: every even call yields a distinct
identifier ending in `'A'`, every odd call one ending in `'B'`. -/
def genDemo : Nat → Keypair := fun i =>
  if i % 2 == 0 then ⟨[Char.ofNat (48 + i), 'A'], [1]⟩
  else ⟨[Char.ofNat (48 + i), 'B'], [2]⟩

/-- No injected store failures. -/
def noFail : Nat → Bool := fun _ => false

/-- Every store insert fails with a non-P2002 infra error. -/
def allFail : Nat → Bool := fun _ => true

/-- Empty initial controller state. -/
def stEmpty : CtrlState := ⟨[], 0, 0, 0, 0⟩

/-- Pattern `"A"`. -/
def patA : Str := ['A']

/-- Pattern `"B"`. -/
def patB : Str := ['B']

/-- Healthy demo configuration. -/
def cfgOk : WConfig := ⟨envZero, genDemo, noFail⟩

/-- Demo configuration with `VANITY_ENCRYPTION_KEY` absent. -/
def cfgNoKey : WConfig := ⟨none, genDemo, noFail⟩

/-- Demo configuration whose store always fails with a non-P2002 error. -/
def cfgFail : WConfig := ⟨envZero, genDemo, allFail⟩

/-!  ## Theorems  -/

/-- C6: for every identifier string and every pattern string, `matches`
returns `true` exactly when the identifier ends with the exact character
sequence of the pattern (`pub = t ++ pattern` for some `t`).  `matches`
is a plain function of its two arguments — the embedding is total and
effect-free, mirroring the side-effect-free source. -/
theorem c6_matches_iff_ends_with (pub pattern : Str) :
    «matches» pub pattern = true ↔ ∃ t, t ++ pattern = pub := by
  unfold «matches»
  rw [List.isSuffixOf_iff_suffix]
  exact Iff.rfl

/-- The `getKey` throw is only ever the missing-key configuration error. -/
theorem getKey_error_eq (env : Option Str) (e : CryptoError)
    (h : getKey env = .error e) : e = .configurationError := by
  unfold getKey at h
  cases env with
  | none => exact (Except.error.inj h).symm
  | some k =>
    by_cases hk : k = []
    · simp [hk] at h
      exact h.symm
    · simp [hk] at h
      split at h <;> simp_all
      split at h <;> simp_all

/-- C4 (amended): `decryptSecret` performs no length validation of its
own and never produces the specification's distinguished `FormatError`;
a blob shorter than the 28-byte nonce-plus-tag region fails inside the
AEAD layer instead — the concrete 20-byte zero blob fails with
`AuthenticationError`. -/
theorem c4_short_blob_no_format_error :
    (∀ env blob, isFormatError (decryptSecret env blob) = false) ∧
    decryptSecret envZero (List.replicate 20 0) = .error .authenticationError ∧
    (List.replicate 20 (0 : Nat)).length < 28 := by
  refine ⟨?_, by decide, by decide⟩
  intro env blob
  unfold decryptSecret
  cases h : getKey env with
  | error e => rw [getKey_error_eq env e h]; rfl
  | ok key =>
    dsimp only
    split
    · rfl
    · split
      · rfl
      · split
        · rfl
        · split <;> rfl

/-- C4 (counterexample to the claim as stated): the 20-byte zero blob is
shorter than the 28-byte fixed region, yet `decryptSecret` fails with
`AuthenticationError`, not with a distinguished `FormatError`. -/
theorem c4_counterexample :
    (List.replicate 20 (0 : Nat)).length < 28 ∧
    decryptSecret envZero (List.replicate 20 0) = .error .authenticationError ∧
    (Except.error CryptoError.authenticationError : Except CryptoError Bytes) ≠
      .error .formatError := by
  refine ⟨by decide, by decide, by decide⟩

/-- `hexDecode` produces one byte per digit pair. -/
theorem hexDecode_length : ∀ s : Str, (hexDecode s).length = s.length / 2
  | [] => by simp [hexDecode]
  | [_] => by simp [hexDecode]
  | c1 :: c2 :: rest => by
    have ih := hexDecode_length rest
    simp [hexDecode, ih]
    omega

/-- C5 (amended): the key-derivation rule of `getKey` — a 64-char hex
string is hex-decoded to 32 bytes; otherwise any 43-45-character string
over the base64 alphabet is base64-decoded, *regardless of its decoded
length* (which can be 33 bytes); every other nonempty material is hashed
to a 32-byte digest. -/
theorem c5_key_derivation_rule (k : Str) (hne : k ≠ []) :
    (isHex64 k = true →
      getKey (some k) = .ok (hexDecode k) ∧ (hexDecode k).length = 32) ∧
    (isHex64 k = false → isB64Str k = true →
      getKey (some k) = .ok (base64Decode k)) ∧
    (isHex64 k = false → isB64Str k = false →
      getKey (some k) = .ok (hashDigest (strBytes k)) ∧
        (hashDigest (strBytes k)).length = 32) := by
  refine ⟨?_, ?_, ?_⟩
  · intro hhex
    constructor
    · simp [getKey, hne, hhex]
    · have hlen : k.length = 64 := by
        have := hhex
        unfold isHex64 at this
        simp at this
        exact this.1
      rw [hexDecode_length, hlen]
  · intro hhex hb64
    simp [getKey, hne, hhex, hb64]
  · intro hhex hb64
    constructor
    · simp [getKey, hne, hhex, hb64]
    · simp [hashDigest]

/-- C5 witness: an arbitrary passphrase takes the hash branch and yields
a 32-byte key. -/
theorem c5_key_derivation_rule_witness :
    getKey (some ['p', 'w']) = .ok (hashDigest (strBytes ['p', 'w'])) ∧
      (hashDigest (strBytes ['p', 'w'])).length = 32 :=
  (c5_key_derivation_rule ['p', 'w'] (by decide)).2.2 (by decide) (by decide)

set_option maxRecDepth 8000 in
/-- C5 (counterexample to the claim as stated): the material of 44 `'A'`
characters is *not* a base64 encoding of 32 bytes (it decodes to 33
bytes), so by the claim it should be hashed to a 256-bit key; the code
instead base64-decodes it to a 33-byte (264-bit) key. -/
theorem c5_counterexample :
    getKey (some (List.replicate 44 'A')) = .ok (List.replicate 33 0) ∧
    (List.replicate 33 (0 : Nat)).length ≠ 32 ∧
    getKey (some (List.replicate 44 'A')) ≠
      .ok (hashDigest (strBytes (List.replicate 44 'A'))) := by
  refine ⟨by decide, by decide, by decide⟩

set_option maxRecDepth 8000 in
/-- C1: evaluation of the code at the failing input.  With
`VANITY_ENCRYPTION_KEY` absent, a controller cycle still runs: the fill
for pattern `"A"` executes a `Keypair.generate` call (the generator
counter moves from 0 to 1) and a successful suffix match, then
`encryptSecret` throws the missing-key configuration error, `main`'s
try/catch logs it, and the cycle completes normally instead of the
process having aborted at startup. -/
theorem c1_search_runs_with_key_absent :
    runCycle cfgNoKey (.num 1) 5 [patA] stEmpty =
      some (⟨[], 1, 0, 0, 0⟩, [.caught patA (.crypto .configurationError)]) := by
  decide

/-- C10: when `VANITY_MIN_BUFFER` does not parse (`Number(...)` yields
`NaN`), `ensureBuffer` compares `ready >= NaN` (false), computes
`toGenerate = NaN`, and the `while (found < NaN)` loop never runs: the
call returns normally with the store untouched, zero generator calls and
zero insert attempts, for every pattern, store state and configuration. -/
theorem c10_nan_min_buffer_disables_fill (C : WConfig) (fuel : Nat)
    (st : CtrlState) (pattern : Str) (envMB : Option Str)
    (h : minBufferOf envMB = .nan) :
    ensureBuffer C (minBufferOf envMB) fuel st pattern = .done (initState st) := by
  rw [h]
  cases fuel <;> simp [ensureBuffer, jsGeNat, jsSubNat, jsMax0, fillLoop, jsLtNat]

/-- C10 witness: the unparsable value `"x"` yields `NaN` and a fill that
does nothing. -/
theorem c10_nan_min_buffer_disables_fill_witness :
    ensureBuffer cfgOk (minBufferOf (some ['x'])) 7 stEmpty patA =
      .done (initState stEmpty) :=
  c10_nan_min_buffer_disables_fill cfgOk 7 stEmpty patA (some ['x']) (by decide)

/-!  ## Crypto lemmas: layout and round-trip  -/

/-- The CSPRNG model always returns 12 bytes, like `randomBytes(12)`. -/
theorem randomBytes12_length (n : Nat) : (randomBytes12 n).length = 12 := by
  simp [randomBytes12]

/-- The tag block is 16 entries, like a GCM auth tag. -/
theorem mkTag_length (key iv enc : Bytes) : (mkTag key iv enc).length = 16 := by
  simp [mkTag]

/-- The keystream has the requested length. -/
theorem keystream_length (key iv : Bytes) (n : Nat) :
    (keystream key iv n).length = n := by
  simp [keystream]

/-- Ciphertext length equals plaintext length. -/
theorem zipXor_length (a b : Bytes) :
    (zipXor a b).length = min a.length b.length := by
  simp [zipXor]

/-- XOR with the same keystream twice is the identity. -/
theorem zipXor_zipXor : ∀ (p k : Bytes), p.length ≤ k.length →
    zipXor (zipXor p k) k = p
  | [], _, _ => rfl
  | _ :: _, [], h => by simp at h
  | p :: ps, k :: ks, h => by
    simp only [zipXor, List.zipWith_cons_cons] at *
    refine congrArg₂ _ ?_ (zipXor_zipXor ps ks (by simpa using h))
    rw [Nat.xor_assoc, Nat.xor_self, Nat.xor_zero]

/-- Normal form of `decryptSecret` on a well-shaped blob: with a valid
key, a 12-entry nonce and a 16-entry tag, unsealing reduces to the tag
comparison. -/
theorem decryptSecret_parts (env : Option Str) (key iv tag enc : Bytes)
    (hk : getKey env = .ok key) (hkl : key.length = 32)
    (hiv : iv.length = 12) (htag : tag.length = 16) :
    decryptSecret env (iv ++ tag ++ enc) =
      if tag = (mkTag key iv enc).take 16 then
        .ok (zipXor enc (keystream key iv enc.length))
      else .error .authenticationError := by
  have h1 : (iv ++ tag ++ enc).take 12 = iv := by
    rw [List.append_assoc]
    exact List.take_left' hiv
  have h2 : (iv ++ tag ++ enc).drop 12 = tag ++ enc := by
    rw [List.append_assoc]
    exact List.drop_left' hiv
  have h3 : (tag ++ enc).take 16 = tag := List.take_left' htag
  have h4 : (iv ++ tag ++ enc).drop 28 = enc := by
    refine List.drop_left' ?_
    rw [List.length_append, hiv, htag]
  unfold decryptSecret
  rw [hk]
  dsimp only
  rw [h1, h2, h3, h4, hkl, hiv, htag]
  simp [tagLenOk]

/-- C2: sealing then unsealing under the same key material returns the
original secret bytes exactly, for every secret `plain`, every nonce
draw, and every key material from which a usable 32-byte key derives. -/
theorem c2_seal_unseal_roundtrip (env : Option Str) (key plain : Bytes)
    (n : Nat) (hk : getKey env = .ok key) (hkl : key.length = 32) :
    (encryptSecret env (randomBytes12 n) plain).bind (decryptSecret env) =
      .ok plain := by
  have henc : encryptSecret env (randomBytes12 n) plain =
      .ok (randomBytes12 n ++
        mkTag key (randomBytes12 n)
          (zipXor plain (keystream key (randomBytes12 n) plain.length)) ++
        zipXor plain (keystream key (randomBytes12 n) plain.length)) := by
    unfold encryptSecret
    rw [hk]
    simp [hkl]
  rw [henc]
  have hstep : ∀ b : Bytes, (Except.ok b).bind (decryptSecret env) =
      decryptSecret env b := fun _ => rfl
  rw [hstep, decryptSecret_parts env key (randomBytes12 n) _ _ hk hkl
    (randomBytes12_length n) (mkTag_length _ _ _)]
  rw [if_pos (by rw [← mkTag_length key (randomBytes12 n)
    (zipXor plain (keystream key (randomBytes12 n) plain.length)), List.take_length])]
  have hlen : (zipXor plain (keystream key (randomBytes12 n) plain.length)).length
      = plain.length := by
    rw [zipXor_length, keystream_length, Nat.min_self]
  rw [hlen]
  rw [zipXor_zipXor plain _ (by rw [keystream_length])]

/-- C2 witness: the zero key material round-trips the secret `[1, 2, 3]`. -/
theorem c2_seal_unseal_roundtrip_witness :
    (encryptSecret envZero (randomBytes12 0) [1, 2, 3]).bind
      (decryptSecret envZero) = .ok [1, 2, 3] :=
  c2_seal_unseal_roundtrip envZero (List.replicate 32 0) [1, 2, 3] 0
    (by decide) (by decide)

/-!  ## Lemmas about the AEAD model tag  -/

instance : Fact (Nat.Prime 257) := ⟨by norm_num⟩

/-- XOR-ing a power of two into a number always changes it. -/
theorem xor_pow_ne (a k : Nat) : a ^^^ 2 ^ k ≠ a := by
  intro h
  have h2 := congrArg (fun z => a ^^^ z) h
  simp only [Nat.xor_cancel_left, Nat.xor_self] at h2
  exact (Nat.pow_pos (by norm_num)).ne' h2

/-- The polynomial hash stays below the modulus. -/
theorem polyA_lt : ∀ (l : Bytes) (h acc : Nat), acc < 257 → polyA h acc l < 257
  | [], _, _, hacc => hacc
  | _ :: t, h, acc, _ =>
    polyA_lt t h _ (Nat.mod_lt _ (by norm_num))

/-- The polynomial hash over the field with 257 elements. -/
def zpoly (hz : ZMod 257) (a : ZMod 257) (l : Bytes) : ZMod 257 :=
  l.foldl (fun (x : ZMod 257) (b : Nat) => x * hz + (b : ZMod 257)) a

/-- `polyA` is the `Nat` computation of `zpoly`. -/
theorem polyA_cast : ∀ (l : Bytes) (h acc : Nat),
    ((polyA h acc l : Nat) : ZMod 257) = zpoly (h : ZMod 257) (acc : ZMod 257) l
  | [], _, _ => rfl
  | b :: t, h, acc => by
    have ih := polyA_cast t h (polyStep h acc b)
    show ((polyA h (polyStep h acc b) t : Nat) : ZMod 257) = _
    rw [ih]
    unfold zpoly
    show List.foldl _ ((polyStep h acc b : Nat) : ZMod 257) t = List.foldl _ _ t
    congr 1
    unfold polyStep
    rw [ZMod.natCast_mod]
    push_cast
    ring

/-- Evaluation at a nonzero point is injective in the accumulator. -/
theorem zpoly_ne (hz : ZMod 257) (hnz : hz ≠ 0) :
    ∀ (l : Bytes) (a₁ a₂ : ZMod 257), a₁ ≠ a₂ → zpoly hz a₁ l ≠ zpoly hz a₂ l
  | [], _, _, hne => hne
  | b :: t, a₁, a₂, hne => by
    show zpoly hz (a₁ * hz + (b : ZMod 257)) t ≠ zpoly hz (a₂ * hz + (b : ZMod 257)) t
    refine zpoly_ne hz hnz t _ _ ?_
    intro heq
    exact hne (mul_right_cancel₀ hnz (add_right_cancel heq))

/-- Distinct values below the modulus stay distinct in the field. -/
theorem natCast_ne_of_lt {a b : Nat} (ha : a < 257) (hb : b < 257) (hne : a ≠ b) :
    (a : ZMod 257) ≠ (b : ZMod 257) := by
  intro h
  exact hne (by rw [← ZMod.val_cast_of_lt ha, ← ZMod.val_cast_of_lt hb, h])

/-- The evaluation point derived from the key is nonzero in the field. -/
theorem hSub_cast_ne (key : Bytes) : ((hSub key : Nat) : ZMod 257) ≠ 0 := by
  have h1 : hSub key < 257 := by
    unfold hSub
    have := Nat.mod_lt (keyNatFold key) (show 0 < 256 by norm_num)
    omega
  have h2 : hSub key ≠ 0 := by
    unfold hSub
    omega
  simpa using natCast_ne_of_lt h1 (show 0 < 257 by norm_num) h2

/-- Changing one entry of the hashed sequence (to a different value below
the modulus) changes the polynomial hash. -/
theorem polyA_single_change (h : Nat) (hh : ((h : Nat) : ZMod 257) ≠ 0)
    (l r : Bytes) (b b' : Nat) (hb : b < 257) (hb' : b' < 257) (hne : b ≠ b') :
    polyA h 1 (l ++ b :: r) ≠ polyA h 1 (l ++ b' :: r) := by
  intro heq
  have hc := congrArg (fun x : Nat => (x : ZMod 257)) heq
  simp only at hc
  rw [polyA_cast, polyA_cast] at hc
  unfold zpoly at hc
  rw [List.foldl_append, List.foldl_append] at hc
  simp only [List.foldl_cons] at hc
  revert hc
  have := zpoly_ne (h : ZMod 257) hh
  intro hc
  refine zpoly_ne (h : ZMod 257) hh r _ _ ?_ hc
  intro heq2
  exact natCast_ne_of_lt hb hb' hne (add_left_cancel heq2)

/-- Base-256 folding is injective on equal-length byte strings whose
entries are genuine bytes. -/
theorem keyNatFold_aux_inj : ∀ (l₁ l₂ : Bytes) (a₁ a₂ : Nat),
    l₁.length = l₂.length → (∀ x ∈ l₁, x < 256) → (∀ x ∈ l₂, x < 256) →
    List.foldl (fun acc b => acc * 256 + b) a₁ l₁ =
      List.foldl (fun acc b => acc * 256 + b) a₂ l₂ →
    a₁ = a₂ ∧ l₁ = l₂
  | [], [], _, _, _, _, _, heq => ⟨heq, rfl⟩
  | [], _ :: _, _, _, hlen, _, _, _ => by simp at hlen
  | _ :: _, [], _, _, hlen, _, _, _ => by simp at hlen
  | x :: t, y :: u, a₁, a₂, hlen, h1, h2, heq => by
    have ih := keyNatFold_aux_inj t u (a₁ * 256 + x) (a₂ * 256 + y)
      (by simpa using hlen)
      (fun z hz => h1 z (by simp [hz]))
      (fun z hz => h2 z (by simp [hz]))
      (by simpa using heq)
    obtain ⟨hacc, ht⟩ := ih
    have hx : x < 256 := h1 x (by simp)
    have hy : y < 256 := h2 y (by simp)
    refine ⟨by omega, ?_⟩
    rw [ht]
    have hxy : x = y := by omega
    rw [hxy]

/-- `keyNatFold` is injective on 32-byte keys. -/
theorem keyNatFold_inj (k₁ k₂ : Bytes) (h₁ : k₁.length = 32) (h₂ : k₂.length = 32)
    (hb₁ : ∀ x ∈ k₁, x < 256) (hb₂ : ∀ x ∈ k₂, x < 256)
    (heq : keyNatFold k₁ = keyNatFold k₂) : k₁ = k₂ :=
  (keyNatFold_aux_inj k₁ k₂ 0 0 (by rw [h₁, h₂]) hb₁ hb₂ heq).2

/-- Keystream bytes are bytes. -/
theorem keystream_mem_lt (key iv : Bytes) (n : Nat) :
    ∀ x ∈ keystream key iv n, x < 256 := by
  intro x hx
  simp only [keystream, List.mem_map] at hx
  obtain ⟨i, _, rfl⟩ := hx
  exact Nat.mod_lt _ (by norm_num)

/-- XOR of byte lists yields bytes. -/
theorem zipXor_mem_lt : ∀ (p k : Bytes), (∀ x ∈ p, x < 256) →
    (∀ x ∈ k, x < 256) → ∀ x ∈ zipXor p k, x < 256
  | [], _, _, _ => by intro x hx; simp [zipXor] at hx
  | _ :: _, [], _, _ => by intro x hx; simp [zipXor] at hx
  | p :: ps, k :: ks, hp, hk => by
    intro x hx
    simp only [zipXor, List.zipWith_cons_cons, List.mem_cons] at hx
    rcases hx with rfl | hx
    · have h1 : p < 2 ^ 8 := by simpa using hp p (by simp)
      have h2 : k < 2 ^ 8 := by simpa using hk k (by simp)
      simpa using Nat.xor_lt_two_pow h1 h2
    · exact zipXor_mem_lt ps ks (fun z hz => hp z (by simp [hz]))
        (fun z hz => hk z (by simp [hz])) x hx

/-- Reading back the entry just written by `set`. -/
theorem getD_set_self {α : Type} (l : List α) (m : Nat) (x d : α)
    (h : m < l.length) : (l.set m x).getD m d = x := by
  rw [List.getD_eq_getElem _ _ (by simpa using h)]
  exact List.getElem_set_self (by simpa using h)

/-- Writing a fresh value at a live index changes the list. -/
theorem set_ne_of_getD_ne {α : Type} (l : List α) (m : Nat) (x d : α)
    (h : m < l.length) (hx : x ≠ l.getD m d) : l.set m x ≠ l := by
  intro heq
  have hval := getD_set_self l m x d h
  rw [heq] at hval
  exact hx hval.symm

/-- A list splits around any live index. -/
theorem list_eq_take_getD_cons_drop {α : Type} (l : List α) (j : Nat) (d : α)
    (h : j < l.length) :
    l = l.take j ++ l.getD j d :: l.drop (j + 1) := by
  conv_lhs => rw [← List.take_append_drop j l]
  rw [List.drop_eq_getElem_cons h, List.getD_eq_getElem _ _ h]

/-- The tag block is already its own 16-entry truncation. -/
theorem mkTag_take16 (key iv enc : Bytes) :
    (mkTag key iv enc).take 16 = mkTag key iv enc :=
  List.take_of_length_le (by rw [mkTag_length])

/-- Tag blocks with different tag values differ. -/
theorem mkTag_ne_of_tagNat_ne {key₁ key₂ iv₁ iv₂ enc₁ enc₂ : Bytes}
    (h : tagNat key₁ iv₁ enc₁ ≠ tagNat key₂ iv₂ enc₂) :
    mkTag key₁ iv₁ enc₁ ≠ mkTag key₂ iv₂ enc₂ := by
  intro heq
  unfold mkTag at heq
  exact h (List.cons.inj heq).1

/-- Under the same key, different hashed sequences give different tag
values. -/
theorem tagNat_ne_same_key (key iv enc enc' : Bytes)
    (h : polyA (hSub key) 1 (iv ++ enc ++ [enc.length]) ≠
      polyA (hSub key) 1 (iv ++ enc' ++ [enc'.length])) :
    tagNat key iv enc ≠ tagNat key iv enc' := by
  unfold tagNat
  intro heq
  exact h (Nat.add_left_cancel heq)

/-- Different key values give different tag values, whatever was
authenticated. -/
theorem tagNat_ne_diff_key (key key' iv iv' enc enc' : Bytes)
    (h : keyNatFold key ≠ keyNatFold key') :
    tagNat key iv enc ≠ tagNat key' iv' enc' := by
  unfold tagNat
  have h1 : polyA (hSub key) 1 (iv ++ enc ++ [enc.length]) < 257 :=
    polyA_lt _ _ _ (by norm_num)
  have h2 : polyA (hSub key') 1 (iv' ++ enc' ++ [enc'.length]) < 257 :=
    polyA_lt _ _ _ (by norm_num)
  intro heq
  omega

/-- Re-association of the hashed sequence around a changed ciphertext
entry. -/
theorem hash_seq_shape {α : Type} (iv A B : List α) (c L : α) :
    iv ++ (A ++ c :: B) ++ [L] = (iv ++ A) ++ c :: (B ++ [L]) := by
  simp [List.append_assoc]

/-- Flipping one entry of the authenticated sequence (within byte range)
changes the tag polynomial. -/
theorem poly_seq_flip_ne (key iv X : Bytes) (j x L : Nat) (hj : j < X.length)
    (hbX : X.getD j 0 < 257) (hx : x < 257) (hne : X.getD j 0 ≠ x) :
    polyA (hSub key) 1 (iv ++ X ++ [L]) ≠
      polyA (hSub key) 1 (iv ++ X.set j x ++ [L]) := by
  have hdec : iv ++ X ++ [L] =
      (iv ++ X.take j) ++ X.getD j 0 :: (X.drop (j + 1) ++ [L]) := by
    conv_lhs => rw [list_eq_take_getD_cons_drop X j 0 hj]
    rw [hash_seq_shape]
  have hdec' : iv ++ X.set j x ++ [L] =
      (iv ++ X.take j) ++ x :: (X.drop (j + 1) ++ [L]) := by
    rw [List.set_eq_take_cons_drop x hj, hash_seq_shape]
  rw [hdec, hdec']
  exact polyA_single_change (hSub key) (hSub_cast_ne key) _ _ _ _ hbX hx hne

/-- The sealed blob under a derivable 32-byte key, written out. -/
theorem theBlob_eq (env : Option Str) (key plain : Bytes) (n : Nat)
    (hk : getKey env = .ok key) (hkl : key.length = 32) :
    theBlob env n plain =
      randomBytes12 n ++
        mkTag key (randomBytes12 n)
          (zipXor plain (keystream key (randomBytes12 n) plain.length)) ++
        zipXor plain (keystream key (randomBytes12 n) plain.length) := by
  unfold theBlob encryptSecret
  rw [hk]
  simp [hkl, Except.toOption]

/-- Core tamper-sensitivity of `decryptSecret` on a well-formed blob:
any single-bit change in the tag region, any in-byte bit change in the
ciphertext region, and any different 32-byte key all make the tag check
fail with `AuthenticationError`. -/
theorem tamper_core (env : Option Str) (key iv enc : Bytes)
    (hk : getKey env = .ok key) (hkl : key.length = 32)
    (hivl : iv.length = 12) (hkb : ∀ x ∈ key, x < 256)
    (hencb : ∀ x ∈ enc, x < 256) :
    (∀ i k, 12 ≤ i → i < 28 →
        decryptSecret env (flipBit (iv ++ mkTag key iv enc ++ enc) i k) =
          .error .authenticationError) ∧
    (∀ i k, 28 ≤ i → i < (iv ++ mkTag key iv enc ++ enc).length → k < 8 →
        decryptSecret env (flipBit (iv ++ mkTag key iv enc ++ enc) i k) =
          .error .authenticationError) ∧
    (∀ env' key', getKey env' = .ok key' → key'.length = 32 →
        (∀ x ∈ key', x < 256) → key' ≠ key →
        decryptSecret env' (iv ++ mkTag key iv enc ++ enc) =
          .error .authenticationError) := by
  have htgl : (mkTag key iv enc).length = 16 := mkTag_length key iv enc
  refine ⟨?_, ?_, ?_⟩
  · intro i k h12 h28
    have hval : (iv ++ mkTag key iv enc ++ enc).getD i 0 =
        (mkTag key iv enc).getD (i - 12) 0 := by
      rw [List.append_assoc,
        List.getD_append_right iv _ 0 i (by rw [hivl]; exact h12), hivl,
        List.getD_append _ enc 0 (i - 12) (by rw [htgl]; omega)]
    have hset : flipBit (iv ++ mkTag key iv enc ++ enc) i k =
        iv ++ (mkTag key iv enc).set (i - 12)
          ((mkTag key iv enc).getD (i - 12) 0 ^^^ 2 ^ k) ++ enc := by
      unfold flipBit
      rw [hval, List.append_assoc, List.set_append,
        if_neg (by rw [hivl]; omega), hivl, List.set_append,
        if_pos (by rw [htgl]; omega), ← List.append_assoc]
    rw [hset,
      decryptSecret_parts env key iv _ enc hk hkl hivl
        (by rw [List.length_set, htgl])]
    have hcond : ¬ ((mkTag key iv enc).set (i - 12)
        ((mkTag key iv enc).getD (i - 12) 0 ^^^ 2 ^ k) =
          (mkTag key iv enc).take 16) := by
      rw [mkTag_take16]
      exact set_ne_of_getD_ne _ _ _ 0 (by rw [htgl]; omega) (xor_pow_ne _ k)
    rw [if_neg hcond]
  · intro i k h28 hlen hk8
    rw [List.length_append, List.length_append, hivl, htgl] at hlen
    have hjl : i - 28 < enc.length := by omega
    have hb : enc.getD (i - 28) 0 < 256 := by
      have hmem : enc.getD (i - 28) 0 ∈ enc := by
        rw [List.getD_eq_getElem _ _ hjl]
        exact List.getElem_mem _
      exact hencb _ hmem
    have hval : (iv ++ mkTag key iv enc ++ enc).getD i 0 =
        enc.getD (i - 28) 0 := by
      rw [List.getD_append_right (iv ++ mkTag key iv enc) enc 0 i
        (by rw [List.length_append, hivl, htgl]; omega)]
      rw [List.length_append, hivl, htgl]
    have hset : flipBit (iv ++ mkTag key iv enc ++ enc) i k =
        iv ++ mkTag key iv enc ++
          enc.set (i - 28) (enc.getD (i - 28) 0 ^^^ 2 ^ k) := by
      unfold flipBit
      rw [hval, List.set_append,
        if_neg (by rw [List.length_append, hivl, htgl]; omega),
        List.length_append, hivl, htgl]
    have hxlt : enc.getD (i - 28) 0 ^^^ 2 ^ k < 257 := by
      have h1 : enc.getD (i - 28) 0 < 2 ^ 8 := by
        have h256 : (256 : Nat) = 2 ^ 8 := by norm_num
        omega
      have h2 : 2 ^ k < 2 ^ 8 := Nat.pow_lt_pow_right (by norm_num) hk8
      have h3 := Nat.xor_lt_two_pow h1 h2
      have h256 : (2 : Nat) ^ 8 = 256 := by norm_num
      omega
    have hxne : enc.getD (i - 28) 0 ≠ enc.getD (i - 28) 0 ^^^ 2 ^ k :=
      (xor_pow_ne _ _).symm
    rw [hset, decryptSecret_parts env key iv (mkTag key iv enc) _ hk hkl hivl htgl]
    have hcond : ¬ (mkTag key iv enc =
        (mkTag key iv
          (enc.set (i - 28) (enc.getD (i - 28) 0 ^^^ 2 ^ k))).take 16) := by
      rw [mkTag_take16]
      apply mkTag_ne_of_tagNat_ne
      apply tagNat_ne_same_key
      rw [List.length_set]
      exact poly_seq_flip_ne key iv enc (i - 28) _ enc.length hjl
        (by omega) hxlt hxne
    rw [if_neg hcond]
  · intro env' key' hk' hkl' hkb' hne
    rw [decryptSecret_parts env' key' iv (mkTag key iv enc) enc hk' hkl' hivl htgl]
    have hKne : keyNatFold key ≠ keyNatFold key' := by
      intro hf
      exact hne (keyNatFold_inj key' key hkl' hkl hkb' hkb hf.symm)
    have hcond : ¬ (mkTag key iv enc = (mkTag key' iv enc).take 16) := by
      rw [mkTag_take16]
      exact mkTag_ne_of_tagNat_ne (tagNat_ne_diff_key key key' iv iv enc enc hKne)
    rw [if_neg hcond]

/-- C3: for every sealed blob (produced from byte-valued plaintext under
a derivable 32-byte key), flipping any bit of any entry in the tag region,
or any in-byte bit in the ciphertext region, makes `decryptSecret` fail
with `AuthenticationError` and return no plaintext; and unsealing with
key material that derives a different 32-byte key also fails with
`AuthenticationError`.  (The AEAD model idealises the external
AES-256-GCM primitive as perfectly authenticating, as its contract
states; really the property holds except with probability about 2^-128.) -/
theorem c3_tamper_and_wrong_key_fail (env : Option Str) (key plain : Bytes)
    (n : Nat) (hk : getKey env = .ok key) (hkl : key.length = 32)
    (hp : ∀ x ∈ plain, x < 256) (hkb : ∀ x ∈ key, x < 256) :
    (∀ i k, 12 ≤ i → i < 28 →
        decryptSecret env (flipBit (theBlob env n plain) i k) =
          .error .authenticationError) ∧
    (∀ i k, 28 ≤ i → i < (theBlob env n plain).length → k < 8 →
        decryptSecret env (flipBit (theBlob env n plain) i k) =
          .error .authenticationError) ∧
    (∀ env' key', getKey env' = .ok key' → key'.length = 32 →
        (∀ x ∈ key', x < 256) → key' ≠ key →
        decryptSecret env' (theBlob env n plain) =
          .error .authenticationError) := by
  rw [theBlob_eq env key plain n hk hkl]
  exact tamper_core env key (randomBytes12 n)
    (zipXor plain (keystream key (randomBytes12 n) plain.length)) hk hkl
    (randomBytes12_length n) hkb
    (zipXor_mem_lt plain _ hp (keystream_mem_lt key (randomBytes12 n) plain.length))

/-- C3 witness: concrete tamper rejections — a tag-region flip, a
ciphertext-region flip, and a different key all fail on the blob sealing
`[1, 2, 3]` under the zero key. -/
theorem c3_tamper_and_wrong_key_fail_witness :
    decryptSecret envZero (flipBit (theBlob envZero 0 [1, 2, 3]) 12 0) =
      .error .authenticationError ∧
    decryptSecret envZero (flipBit (theBlob envZero 0 [1, 2, 3]) 28 0) =
      .error .authenticationError ∧
    decryptSecret envOne (theBlob envZero 0 [1, 2, 3]) =
      .error .authenticationError := by
  have h := c3_tamper_and_wrong_key_fail envZero (List.replicate 32 0) [1, 2, 3] 0
    (by decide) (by decide) (by decide) (by decide)
  exact ⟨h.1 12 0 (by decide) (by decide),
    h.2.1 28 0 (by decide) (by decide) (by decide),
    h.2.2 envOne (List.replicate 32 17) (by decide) (by decide) (by decide)
      (by decide)⟩

/-!  ## Step lemmas for the search loop  -/

/-- Sealing succeeds whenever a 32-byte key derives. -/
theorem encryptSecret_ok (env : Option Str) (key iv plain : Bytes)
    (hk : getKey env = .ok key) (hkl : key.length = 32) :
    encryptSecret env iv plain =
      .ok (iv ++ mkTag key iv (zipXor plain (keystream key iv plain.length)) ++
        zipXor plain (keystream key iv plain.length)) := by
  unfold encryptSecret
  rw [hk]
  simp [hkl]

/-- The loop test failed: `ensureBuffer`'s while loop exits normally. -/
theorem fillLoop_stop (C : WConfig) (pattern : Str) (toGen : JsNum)
    (fuel : Nat) (s : SearchState) (h : jsLtNat s.found toGen = false) :
    fillLoop C pattern toGen fuel s = .done s := by
  cases fuel <;> simp [fillLoop, h]

/-- A non-matching candidate only advances the generator. -/
theorem fillLoop_skip (C : WConfig) (pattern : Str) (toGen : JsNum)
    (fuel : Nat) (s : SearchState) (hlt : jsLtNat s.found toGen = true)
    (hM : «matches» (C.gen s.next).publicKey pattern = false) :
    fillLoop C pattern toGen (fuel + 1) s =
      fillLoop C pattern toGen fuel { s with next := s.next + 1 } := by
  simp [fillLoop, hlt, hM]

/-- A sealing throw escapes the loop at once. -/
theorem fillLoop_crypto_error (C : WConfig) (pattern : Str) (toGen : JsNum)
    (fuel : Nat) (s : SearchState) (e : CryptoError)
    (hlt : jsLtNat s.found toGen = true)
    (hM : «matches» (C.gen s.next).publicKey pattern = true)
    (hE : encryptSecret C.env (randomBytes12 s.ivn) (C.gen s.next).secretKey =
      .error e) :
    fillLoop C pattern toGen (fuel + 1) s =
      .failed (.crypto e) { s with next := s.next + 1 } := by
  simp [fillLoop, hlt, hM, hE]

/-- An injected non-P2002 store failure escapes the loop at once. -/
theorem fillLoop_store_error (C : WConfig) (pattern : Str) (toGen : JsNum)
    (fuel : Nat) (s : SearchState) (enc : Bytes)
    (hlt : jsLtNat s.found toGen = true)
    (hM : «matches» (C.gen s.next).publicKey pattern = true)
    (hE : encryptSecret C.env (randomBytes12 s.ivn) (C.gen s.next).secretKey =
      .ok enc)
    (hF : C.failAt s.att = true) :
    fillLoop C pattern toGen (fuel + 1) s =
      .failed .storeError
        { s with next := s.next + 1, ivn := s.ivn + 1,
                 uuid := s.uuid + 1, att := s.att + 1 } := by
  simp [fillLoop, hlt, hM, hE, hF]

/-- A successful insert counts the find and continues. -/
theorem fillLoop_insert (C : WConfig) (pattern : Str) (toGen : JsNum)
    (fuel : Nat) (s : SearchState) (enc : Bytes) (store' : List Row)
    (hlt : jsLtNat s.found toGen = true)
    (hM : «matches» (C.gen s.next).publicKey pattern = true)
    (hE : encryptSecret C.env (randomBytes12 s.ivn) (C.gen s.next).secretKey =
      .ok enc)
    (hF : C.failAt s.att = false)
    (hC : create s.store (candRow C pattern s enc) = .inserted store') :
    fillLoop C pattern toGen (fuel + 1) s =
      fillLoop C pattern toGen fuel
        { store := store', found := s.found + 1, next := s.next + 1,
          ivn := s.ivn + 1, uuid := s.uuid + 1, att := s.att + 1 } := by
  simp [fillLoop, hlt, hM, hE, hF, hC]

/-- A P2002 duplicate is skipped: no find counted, loop continues. -/
theorem fillLoop_dup (C : WConfig) (pattern : Str) (toGen : JsNum)
    (fuel : Nat) (s : SearchState) (enc : Bytes)
    (hlt : jsLtNat s.found toGen = true)
    (hM : «matches» (C.gen s.next).publicKey pattern = true)
    (hE : encryptSecret C.env (randomBytes12 s.ivn) (C.gen s.next).secretKey =
      .ok enc)
    (hF : C.failAt s.att = false)
    (hC : create s.store (candRow C pattern s enc) = .dupP2002) :
    fillLoop C pattern toGen (fuel + 1) s =
      fillLoop C pattern toGen fuel
        { s with next := s.next + 1, ivn := s.ivn + 1,
                 uuid := s.uuid + 1, att := s.att + 1 } := by
  simp [fillLoop, hlt, hM, hE, hF, hC]

/-- Invariant of a completed search loop: the store only grew by new
rows, one per counted find, each `ready`, case-sensitive, for this
pattern, with a matching identifier; and the final `found` is the least
count that falsifies the loop test. -/
theorem fillLoop_done_spec (C : WConfig) (pattern : Str) (toGen : JsNum) :
    ∀ (fuel : Nat) (s s' : SearchState),
      fillLoop C pattern toGen fuel s = .done s' →
      ∃ Δ : List Row,
        s'.store = s.store ++ Δ ∧
        s'.found = s.found + Δ.length ∧
        (∀ r ∈ Δ, r.status = readyS ∧ r.caseSensitive = true ∧
          r.pattern = pattern ∧ «matches» r.publicKey pattern = true) ∧
        jsLtNat s'.found toGen = false ∧
        (s'.found = s.found ∨ jsLtNat (s'.found - 1) toGen = true) := by
  intro fuel
  induction fuel with
  | zero =>
    intro s s' h
    by_cases hlt : jsLtNat s.found toGen = true
    · rw [fillLoop, if_pos hlt] at h
      exact absurd h (by simp)
    · rw [fillLoop_stop C pattern toGen 0 s (by simpa using hlt)] at h
      obtain rfl : s = s' := FillOutcome.done.inj h
      exact ⟨[], by simp, by simp, by simp, by simpa using hlt, Or.inl rfl⟩
  | succ fuel ih =>
    intro s s' h
    by_cases hlt : jsLtNat s.found toGen = true
    case neg =>
      rw [fillLoop_stop C pattern toGen _ s (by simpa using hlt)] at h
      obtain rfl : s = s' := FillOutcome.done.inj h
      exact ⟨[], by simp, by simp, by simp, by simpa using hlt, Or.inl rfl⟩
    case pos =>
      cases hM : «matches» (C.gen s.next).publicKey pattern with
      | false =>
        rw [fillLoop_skip C pattern toGen fuel s hlt hM] at h
        have hres := ih _ _ h
        simpa using hres
      | true =>
        cases hE : encryptSecret C.env (randomBytes12 s.ivn)
            (C.gen s.next).secretKey with
        | error e =>
          rw [fillLoop_crypto_error C pattern toGen fuel s e hlt hM hE] at h
          exact absurd h (by simp)
        | ok enc =>
          cases hF : C.failAt s.att with
          | true =>
            rw [fillLoop_store_error C pattern toGen fuel s enc hlt hM hE hF] at h
            exact absurd h (by simp)
          | false =>
            cases hC : create s.store (candRow C pattern s enc) with
            | inserted store' =>
              rw [fillLoop_insert C pattern toGen fuel s enc store' hlt hM hE hF hC] at h
              obtain ⟨Δ, h1, h2, h3, h4, h5⟩ := ih _ _ h
              have hst : store' = s.store ++ [candRow C pattern s enc] := by
                unfold create at hC
                split at hC
                · exact absurd hC (by simp)
                · exact (InsertResult.inserted.inj hC).symm
              refine ⟨candRow C pattern s enc :: Δ, ?_, ?_, ?_, h4, ?_⟩
              · simp only at h1
                rw [h1, hst, List.append_assoc]
                rfl
              · simp only at h2
                simp only [List.length_cons]
                omega
              · intro r hr
                rcases List.mem_cons.mp hr with rfl | hr
                · exact ⟨rfl, rfl, rfl, hM⟩
                · exact h3 r hr
              · rcases h5 with h5 | h5
                · right
                  simp only at h5
                  rw [h5]
                  simpa using hlt
                · right
                  exact h5
            | dupP2002 =>
              rw [fillLoop_dup C pattern toGen fuel s enc hlt hM hE hF hC] at h
              have hres := ih _ _ h
              simpa using hres

/-- `countReady` distributes over store growth. -/
theorem countReady_append (store Δ : List Row) (pattern : Str) :
    countReady (store ++ Δ) pattern =
      countReady store pattern + countReady Δ pattern := by
  simp [countReady, List.filter_append]

/-- Rows that are `ready`, case-sensitive and for this pattern are all
counted. -/
theorem countReady_all (Δ : List Row) (pattern : Str)
    (h : ∀ r ∈ Δ, r.status = readyS ∧ r.caseSensitive = true ∧
      r.pattern = pattern ∧ «matches» r.publicKey pattern = true) :
    countReady Δ pattern = Δ.length := by
  unfold countReady
  rw [List.filter_eq_self.mpr]
  intro r hr
  obtain ⟨h1, h2, h3, _⟩ := h r hr
  simp [readyRowFor, h1, h2, h3]

/-- C7: with an integer buffer target `n`, a completed `ensureBuffer`
call inserts exactly `n - r` new rows (`r` the initial ready-count;
none when `r ≥ n`), each `ready` and matching the pattern, after which
`countReady` returns `max r n ≥ n`; and when `r ≥ n` already holds the
call returns at once with the store untouched and zero generator calls
and zero insert attempts. -/
theorem c7_fill_exactness (C : WConfig) (fuel : Nat) (st : CtrlState)
    (pattern : Str) (n : Nat)
    (hdone : (ensureBuffer C (.num (n : ℤ)) fuel st pattern).isDone = true) :
    ((ensureBuffer C (.num (n : ℤ)) fuel st pattern).state.store.length =
      st.store.length + (n - countReady st.store pattern)) ∧
    ((ensureBuffer C (.num (n : ℤ)) fuel st pattern).state.found =
      n - countReady st.store pattern) ∧
    (∀ r ∈ ((ensureBuffer C (.num (n : ℤ)) fuel st pattern).state.store.drop
        st.store.length),
      r.status = readyS ∧ r.caseSensitive = true ∧ r.pattern = pattern ∧
        «matches» r.publicKey pattern = true) ∧
    (countReady (ensureBuffer C (.num (n : ℤ)) fuel st pattern).state.store
        pattern = max (countReady st.store pattern) n) ∧
    (n ≤ countReady st.store pattern →
      ensureBuffer C (.num (n : ℤ)) fuel st pattern = .done (initState st)) := by
  by_cases hge : jsGeNat (countReady st.store pattern) (.num (n : ℤ)) = true
  · have hEB : ensureBuffer C (.num (n : ℤ)) fuel st pattern =
        .done (initState st) := by
      unfold ensureBuffer
      rw [if_pos hge]
    have hle : n ≤ countReady st.store pattern := by
      unfold jsGeNat at hge
      simp only [decide_eq_true_eq] at hge
      exact_mod_cast hge
    rw [hEB]
    refine ⟨?_, ?_, ?_, ?_, fun _ => rfl⟩
    · simp [FillOutcome.state, initState]
      omega
    · simp [FillOutcome.state, initState]
      omega
    · simp [FillOutcome.state, initState]
    · simp [FillOutcome.state, initState]
      omega
  · have hlt : countReady st.store pattern < n := by
      unfold jsGeNat at hge
      simp only [decide_eq_true_eq] at hge
      omega
    have htg : jsMax0 (jsSubNat (.num (n : ℤ)) (countReady st.store pattern)) =
        .num ((n : ℤ) - countReady st.store pattern) := by
      unfold jsSubNat jsMax0
      dsimp only
      rw [if_neg (by omega)]
    have hEB : ensureBuffer C (.num (n : ℤ)) fuel st pattern =
        fillLoop C pattern (.num ((n : ℤ) - countReady st.store pattern)) fuel
          (initState st) := by
      unfold ensureBuffer
      rw [if_neg hge, htg]
    rw [hEB] at hdone ⊢
    cases hfl : fillLoop C pattern
        (.num ((n : ℤ) - countReady st.store pattern)) fuel (initState st) with
    | failed e s' => rw [hfl] at hdone; simp [FillOutcome.isDone] at hdone
    | outOfFuel s' => rw [hfl] at hdone; simp [FillOutcome.isDone] at hdone
    | done s' =>
      obtain ⟨Δ, h1, h2, h3, h4, h5⟩ :=
        fillLoop_done_spec C pattern _ fuel (initState st) s' hfl
      simp only [initState] at h1 h2 h5
      have hstop : ¬ ((s'.found : ℤ) < (n : ℤ) - countReady st.store pattern) := by
        unfold jsLtNat at h4
        simpa using h4
      have hlast : s'.found = 0 ∨
          ((s'.found - 1 : Nat) : ℤ) < (n : ℤ) - countReady st.store pattern := by
        rcases h5 with h5 | h5
        · exact Or.inl h5
        · unfold jsLtNat at h5
          simp only [decide_eq_true_eq] at h5
          exact Or.inr h5
      have hfound : s'.found = n - countReady st.store pattern := by omega
      have hΔlen : Δ.length = n - countReady st.store pattern := by omega
      simp only [FillOutcome.state]
      refine ⟨?_, ?_, ?_, ?_, ?_⟩
      · rw [h1, List.length_append, hΔlen]
      · exact hfound
      · rw [h1, List.drop_left' rfl]
        exact h3
      · rw [h1, countReady_append, countReady_all Δ pattern h3, hΔlen]
        omega
      · intro hn
        omega

set_option maxRecDepth 8000 in
/-- C7 witness: from an empty store with target 2 for pattern `"A"`, the
fill stores exactly 2 matching rows and `countReady` returns 2; the
immediately following invocation returns at once leaving everything
unchanged. -/
theorem c7_fill_exactness_witness :
    (ensureBuffer cfgOk (.num ((2 : Nat) : ℤ)) 10 stEmpty patA).state.store.length = 2 ∧
    countReady
      (ensureBuffer cfgOk (.num ((2 : Nat) : ℤ)) 10 stEmpty patA).state.store
      patA = 2 ∧
    ensureBuffer cfgOk (.num ((2 : Nat) : ℤ)) 10
        (ctrlOf (ensureBuffer cfgOk (.num ((2 : Nat) : ℤ)) 10 stEmpty patA).state)
        patA =
      .done (initState
        (ctrlOf (ensureBuffer cfgOk (.num ((2 : Nat) : ℤ)) 10 stEmpty patA).state)) := by
  have h := c7_fill_exactness cfgOk 10 stEmpty patA 2 (by decide)
  have h2 := c7_fill_exactness cfgOk 10
    (ctrlOf (ensureBuffer cfgOk (.num ((2 : Nat) : ℤ)) 10 stEmpty patA).state)
    patA 2 (by decide)
  refine ⟨?_, ?_, h2.2.2.2.2 (by decide)⟩
  · simpa [stEmpty, countReady] using h.1
  · simpa [stEmpty, countReady] using h.2.2.2.1

/-- The state advance of one attempt: counters for generate, nonce,
uuid and insert all move on (store and `found` stay). -/
def bumpDup (s : SearchState) : SearchState :=
  { s with next := s.next + 1, ivn := s.ivn + 1,
           uuid := s.uuid + 1, att := s.att + 1 }

/-- C8: when the candidate's `publicId` already exists in the store, the
insert resolves to the distinguished `dupP2002` outcome (not a generic
error), `found` is not incremented, the fill is not aborted — the loop
just continues — and the store keeps exactly one row for that
`publicId`. -/
theorem c8_duplicate_tolerated (C : WConfig) (pattern : Str) (toGen : JsNum)
    (fuel : Nat) (s : SearchState) (key : Bytes)
    (hk : getKey C.env = .ok key) (hkl : key.length = 32)
    (hlt : jsLtNat s.found toGen = true)
    (hM : «matches» (C.gen s.next).publicKey pattern = true)
    (hF : C.failAt s.att = false)
    (hdup : (s.store.filter
      (fun r => r.publicKey == (C.gen s.next).publicKey)).length = 1) :
    (∀ row : Row, row.publicKey = (C.gen s.next).publicKey →
        create s.store row = .dupP2002) ∧
    fillLoop C pattern toGen (fuel + 1) s =
      fillLoop C pattern toGen fuel (bumpDup s) ∧
    (bumpDup s).found = s.found ∧
    ((bumpDup s).store.filter
        (fun r => r.publicKey == (C.gen s.next).publicKey)).length = 1 := by
  have hcr : ∀ row : Row, row.publicKey = (C.gen s.next).publicKey →
      create s.store row = .dupP2002 := by
    intro row hrow
    unfold create
    rw [if_pos]
    have hpos : 0 < (s.store.filter
        (fun r => r.publicKey == (C.gen s.next).publicKey)).length := by omega
    obtain ⟨r, hrmem⟩ := List.exists_mem_of_length_pos hpos
    have hrstore := List.mem_of_mem_filter hrmem
    have hrpub := List.of_mem_filter hrmem
    rw [List.any_eq_true]
    exact ⟨r, hrstore, by rw [hrow]; exact hrpub⟩
  refine ⟨hcr, ?_, rfl, hdup⟩
  exact fillLoop_dup C pattern toGen fuel s _ hlt hM
    (encryptSecret_ok C.env key (randomBytes12 s.ivn) (C.gen s.next).secretKey hk hkl)
    hF (hcr _ rfl)

/-- A store row colliding with the first demo candidate `"0A"`. -/
def rowDup : Row := ⟨99, ['0', 'A'], [], patA, true, readyS⟩

/-- A search state whose store already holds `rowDup`. -/
def sDup : SearchState := ⟨[rowDup], 0, 0, 0, 0, 0⟩

/-- C8 witness: with `"0A"` already stored, one loop step under target 1
turns into a skipped duplicate and the loop goes on searching with the
same store and `found` count. -/
theorem c8_duplicate_tolerated_witness :
    fillLoop cfgOk patA (.num 1) 4 sDup =
      fillLoop cfgOk patA (.num 1) 3 ⟨[rowDup], 0, 1, 1, 1, 1⟩ ∧
    create sDup.store (candRow cfgOk patA sDup []) = .dupP2002 := by
  have h := c8_duplicate_tolerated cfgOk patA (.num 1) 3 sDup
    (List.replicate 32 0) (by decide) (by decide) (by decide) (by decide)
    (by decide) (by decide)
  exact ⟨h.2.1, h.1 (candRow cfgOk patA sDup []) rfl⟩

/-- C9: a non-duplicate persistence failure aborts the pattern's fill at
once and surfaces as the `storeError` outcome; the controller catches a
failed fill, logs it, and still processes every remaining pattern of the
cycle and every further cycle — a completed cycle always has one event
per pattern, and a completed run of `m` cycles has `m` full cycles of
events, failures included. -/
theorem c9_failure_isolation (C : WConfig) (minB : JsNum) (fuel : Nat) :
    (∀ pattern toGen key s, getKey C.env = .ok key → key.length = 32 →
        jsLtNat s.found toGen = true →
        «matches» (C.gen s.next).publicKey pattern = true →
        C.failAt s.att = true →
        fillLoop C pattern toGen (fuel + 1) s =
          .failed .storeError
            { s with next := s.next + 1, ivn := s.ivn + 1,
                     uuid := s.uuid + 1, att := s.att + 1 }) ∧
    (∀ p ps st e s₁, ensureBuffer C minB fuel st p = .failed e s₁ →
        runCycle C minB fuel (p :: ps) st =
          (runCycle C minB fuel ps (ctrlOf s₁)).map
            (fun r => (r.1, Event.caught p e :: r.2))) ∧
    (∀ ps st st' evs, runCycle C minB fuel ps st = some (st', evs) →
        evs.length = ps.length) ∧
    (∀ m ps st st' evss, runCycles C minB fuel ps m st = some (st', evss) →
        evss.length = m ∧ ∀ evs ∈ evss, evs.length = ps.length) := by
  have hcyc : ∀ ps st st' evs, runCycle C minB fuel ps st = some (st', evs) →
      evs.length = ps.length := by
    intro ps
    induction ps with
    | nil =>
      intro st st' evs h
      simp only [runCycle] at h
      obtain ⟨-, rfl⟩ := Prod.mk.inj (Option.some.inj h)
      rfl
    | cons p ps ih =>
      intro st st' evs h
      simp only [runCycle] at h
      cases hEB : ensureBuffer C minB fuel st p with
      | done s =>
        rw [hEB] at h
        simp only [Option.map_eq_some'] at h
        obtain ⟨r, hr, hrev⟩ := h
        obtain ⟨-, rfl⟩ := Prod.mk.inj hrev
        simp [ih (ctrlOf s) r.1 r.2 (by rw [← hr])]
      | failed e s =>
        rw [hEB] at h
        simp only [Option.map_eq_some'] at h
        obtain ⟨r, hr, hrev⟩ := h
        obtain ⟨-, rfl⟩ := Prod.mk.inj hrev
        simp [ih (ctrlOf s) r.1 r.2 (by rw [← hr])]
      | outOfFuel s =>
        rw [hEB] at h
        exact absurd h (by simp)
  refine ⟨?_, ?_, hcyc, ?_⟩
  · intro pattern toGen key s hk hkl hlt hM hF
    exact fillLoop_store_error C pattern toGen fuel s _ hlt hM
      (encryptSecret_ok C.env key (randomBytes12 s.ivn)
        (C.gen s.next).secretKey hk hkl) hF
  · intro p ps st e s₁ hfail
    simp [runCycle, hfail]
  · intro m
    induction m with
    | zero =>
      intro ps st st' evss h
      simp only [runCycles] at h
      obtain ⟨-, rfl⟩ := Prod.mk.inj (Option.some.inj h)
      exact ⟨rfl, by simp⟩
    | succ m ih =>
      intro ps st st' evss h
      simp only [runCycles] at h
      cases hrc : runCycle C minB fuel ps st with
      | none => rw [hrc] at h; exact absurd h (by simp)
      | some r =>
        obtain ⟨stc, evsc⟩ := r
        rw [hrc] at h
        simp only [Option.map_eq_some'] at h
        obtain ⟨r', hr', hrev⟩ := h
        obtain ⟨-, rfl⟩ := Prod.mk.inj hrev
        obtain ⟨hlen, hall⟩ := ih ps stc r'.1 r'.2 (by rw [← hr'])
        refine ⟨by simp [hlen], ?_⟩
        intro evs hevs
        rcases List.mem_cons.mp hevs with h1 | h1
        · rw [h1]
          exact hcyc ps st stc evsc hrc
        · exact hall evs h1

set_option maxRecDepth 8000 in
/-- C9 witness: with every insert failing, a cycle over patterns `"A"`
and `"B"` still completes with one (caught-error) event per pattern. -/
theorem c9_failure_isolation_witness :
    runCycleEvLen cfgFail (.num 1) 3 [patA, patB] stEmpty = some 2 := by
  rcases hrc : runCycle cfgFail (.num 1) 3 [patA, patB] stEmpty with _ | r
  · exact absurd hrc (by decide)
  · obtain ⟨st', evs⟩ := r
    have h := (c9_failure_isolation cfgFail (.num 1) 3).2.2.1
      [patA, patB] stEmpty st' evs hrc
    simp [runCycleEvLen, hrc, h]
